/-
Verification of the xueqiu scraper core against its specification.

Shallow embedding of the Python sources under `scraper/`:
  * `crawler.py`   — `AdaptiveDelay`, `backfill_comments`
  * `storage.py`   — `sanitize_filename`, `load_manifest`, `save_manifest`
  * `models.py`    — `SyncManifest`, `SyncManifestEntry`, `Comment`, …
  * `api.py`       — `_request_with_retry`, `fetch_all_author_comments`
  * `content.py`   — `html_to_markdown` document walk and blank-line cleanup

Python floats are modelled as exact rationals (`ℚ`); machine-level float
rounding is not relevant to any statement proved here.  Randomness
(`random.uniform`) is modelled by explicit oracle arguments.  I/O (HTTP
responses, file contents, clock) is modelled by explicit inputs and by
returning the written data.
-/
import Mathlib

/-! ### `crawler.py` — class `AdaptiveDelay` (lines 14–54)

State: `current`, `min_delay`, `max_delay`, `jitter`, all Python floats,
modelled as `ℚ`. -/

structure AdaptiveDelay where
  current : ℚ
  min_delay : ℚ
  max_delay : ℚ
  jitter : ℚ
deriving Repr, DecidableEq

/-- `AdaptiveDelay.__init__(base, min_delay=3.0, max_delay=120.0, jitter=0.5)`. -/
def AdaptiveDelay.init (base : ℚ) (min_delay : ℚ := 3) (max_delay : ℚ := 120)
    (jitter : ℚ := 1/2) : AdaptiveDelay :=
  { current := base, min_delay := min_delay, max_delay := max_delay, jitter := jitter }

/-- `self.current = max(self.min_delay, self.current * 0.9)` (crawler.py line 43). -/
def AdaptiveDelay.success (d : AdaptiveDelay) : AdaptiveDelay :=
  { d with current := max d.min_delay (d.current * (9/10)) }

/-- `self.current = min(self.max_delay, self.current * 2)` (crawler.py line 47). -/
def AdaptiveDelay.failure (d : AdaptiveDelay) : AdaptiveDelay :=
  { d with current := min d.max_delay (d.current * 2) }

/-- `wait()` (crawler.py lines 49–54) computes
`delay = self.current * random.uniform(1 - self.jitter, 1 + self.jitter)`
and sleeps for it.  The uniform draw is an oracle argument `u`.  The method
reads but never assigns any attribute, so the state component of the result
is the input state unchanged. -/
def AdaptiveDelay.wait (d : AdaptiveDelay) (u : ℚ) : AdaptiveDelay × ℚ :=
  (d, d.current * u)

/-- A finite sequence of `success()` / `failure()` calls. -/
inductive DelayOp where
  | success
  | failure
deriving Repr, DecidableEq

def AdaptiveDelay.applyOp (d : AdaptiveDelay) : DelayOp → AdaptiveDelay
  | .success => d.success
  | .failure => d.failure

def AdaptiveDelay.applyOps (d : AdaptiveDelay) (ops : List DelayOp) : AdaptiveDelay :=
  ops.foldl AdaptiveDelay.applyOp d

/-! ### `storage.py` — `sanitize_filename` (lines 13–32)

Strings are processed as `List Char`.  Python's `\w` (with `re.UNICODE`)
covers all Unicode word characters; the model covers ASCII alphanumerics,
the underscore, and the CJK block `一`–`鿿` that the regex class
names explicitly — the character classes exercised by the properties
below. -/

/-- Characters kept by the class `[\w一-鿿\-]` minus the hyphen:
word characters (modelled: ASCII alphanumeric, underscore, CJK). -/
def isWordChar (c : Char) : Bool :=
  c.isAlpha || c.isDigit || c == '_' ||
    (0x4e00 ≤ c.toNat && c.toNat ≤ 0x9fff)

/-- A character the sanitizer keeps: member of `[\w一-鿿\-]`. -/
def isEligibleChar (c : Char) : Bool :=
  isWordChar c || c == '-'

/-- `re.sub(r'[^\w一-鿿\-]', '_', name)` (storage.py line 27). -/
def replaceIneligible (l : List Char) : List Char :=
  l.map fun c => if isEligibleChar c then c else '_'

/-- `re.sub(r'_+', '_', safe)` (storage.py line 29): collapse each run of
underscores to a single underscore. -/
def collapseUnderscores : List Char → List Char
  | [] => []
  | [c] => [c]
  | c :: c' :: rest =>
    if c == '_' && c' == '_' then collapseUnderscores (c' :: rest)
    else c :: collapseUnderscores (c' :: rest)

/-- `.strip('_')` (storage.py line 29). -/
def stripUnderscores (l : List Char) : List Char :=
  ((l.dropWhile (· == '_')).reverse.dropWhile (· == '_')).reverse

/-- `safe[:max_length].rstrip('_')` (storage.py line 31). -/
def truncateRstrip (maxLength : Nat) (l : List Char) : List Char :=
  ((l.take maxLength).reverse.dropWhile (· == '_')).reverse

/-- `sanitize_filename(name, max_length=50)` (storage.py lines 13–32). -/
def sanitize_filename (name : String) (maxLength : Nat := 50) : String :=
  let safe := stripUnderscores (collapseUnderscores (replaceIneligible name.toList))
  let safe := if safe.length > maxLength then truncateRstrip maxLength safe else safe
  if safe.isEmpty then "untitled" else String.mk safe

/-! ### `models.py` — pydantic models

Python dicts are modelled as association lists with the dict's
key-uniqueness and insertion-order semantics (`dictInsert` replaces in
place, otherwise appends). -/

def alookup {α : Type} (k : String) : List (String × α) → Option α
  | [] => none
  | (k', v) :: rest => if k' = k then some v else alookup k rest

def dictInsert {α : Type} (k : String) (v : α) : List (String × α) → List (String × α)
  | [] => [(k, v)]
  | (k', v') :: rest =>
    if k' = k then (k, v) :: rest else (k', v') :: dictInsert k v rest

/-- `models.CommentUser`. -/
structure CommentUser where
  id : Int
  screen_name : String := ""
deriving Repr, DecidableEq

/-- `models.Comment` (timestamps are epoch milliseconds). -/
structure Comment where
  id : Int
  text : String := ""
  created_at : Int := 0
  user : Option CommentUser := none
  like_count : Int := 0
deriving Repr, DecidableEq

/-- `models.CommentsResponse`. -/
structure CommentsResponse where
  count : Int := 0
  page : Int := 1
  maxPage : Int := 1
  comments : List Comment := []
deriving Repr, DecidableEq

/-- `models.SyncManifestEntry`. -/
structure SyncManifestEntry where
  article_id : Int
  title : String := ""
  file_path : String := ""
  synced_at : String := ""
  comments_fetched : Bool := true
deriving Repr, DecidableEq

/-- `models.SyncManifest`. -/
structure SyncManifest where
  user_id : Int := 0
  last_sync : String := ""
  articles : List (String × SyncManifestEntry) := []
deriving Repr, DecidableEq

/-- `SyncManifest()` with all defaults — the empty store. -/
def SyncManifest.empty : SyncManifest := {}

/-- `models.SyncManifest.has_article` (models.py lines 147–149). -/
def SyncManifest.has_article (m : SyncManifest) (article_id : Int) : Bool :=
  (alookup (toString article_id) m.articles).isSome

/-- `models.SyncManifest.add_article` (models.py lines 151–153). -/
def SyncManifest.add_article (m : SyncManifest) (entry : SyncManifestEntry) : SyncManifest :=
  { m with articles := dictInsert (toString entry.article_id) entry m.articles }

/-! ### JSON values

Model of parsed JSON documents (`json.loads` output).  Number values
are modelled as integers — the manifest stores only integers, booleans
and strings. -/

inductive Json where
  | null
  | bool (b : Bool)
  | num (n : Int)
  | str (s : String)
  | arr (elems : List Json)
  | obj (fields : List (String × Json))
deriving Repr

/-! Pydantic `model_validate` for the manifest models.  A field that is
absent takes its declared default; a field that is present with an
unexpected shape makes validation fail (`ValidationError`, a `ValueError`).
Lax-mode numeric-string coercions are not modelled; no claim depends on
them. -/

/-- Read an optional `int` field with default `d`. -/
def jfieldInt (fields : List (String × Json)) (k : String) (d : Int) : Option Int :=
  match alookup k fields with
  | none => some d
  | some (.num n) => some n
  | some _ => none

/-- Read an optional `str` field with default `d`. -/
def jfieldStr (fields : List (String × Json)) (k : String) (d : String) : Option String :=
  match alookup k fields with
  | none => some d
  | some (.str s) => some s
  | some _ => none

/-- Read an optional `bool` field with default `d`. -/
def jfieldBool (fields : List (String × Json)) (k : String) (d : Bool) : Option Bool :=
  match alookup k fields with
  | none => some d
  | some (.bool b) => some b
  | some _ => none

/-- `SyncManifestEntry.model_validate`: `article_id` is required, the rest
default. -/
def validateEntry : Json → Option SyncManifestEntry
  | .obj fields =>
    match alookup "article_id" fields with
    | some (.num aid) =>
      match jfieldStr fields "title" "", jfieldStr fields "file_path" "",
            jfieldStr fields "synced_at" "", jfieldBool fields "comments_fetched" true with
      | some t, some fp, some sa, some cf =>
        some { article_id := aid, title := t, file_path := fp, synced_at := sa,
               comments_fetched := cf }
      | _, _, _, _ => none
    | _ => none
  | _ => none

def validateEntries : List (String × Json) → Option (List (String × SyncManifestEntry))
  | [] => some []
  | (k, j) :: rest =>
    match validateEntry j, validateEntries rest with
    | some e, some es => some ((k, e) :: es)
    | _, _ => none

/-- `SyncManifest.model_validate`: every field defaults; the `articles`
field, when present, must be an object of valid entries. -/
def validateManifest : Json → Option SyncManifest
  | .obj fields =>
    match jfieldInt fields "user_id" 0, jfieldStr fields "last_sync" "" with
    | some uid, some ls =>
      match alookup "articles" fields with
      | none => some { user_id := uid, last_sync := ls, articles := [] }
      | some (.obj arts) =>
        match validateEntries arts with
        | some es => some { user_id := uid, last_sync := ls, articles := es }
        | none => none
      | some _ => none
    | _, _ => none
  | _ => none

/-- `SyncManifestEntry.model_dump_json` (as a JSON value). -/
def SyncManifestEntry.toJson (e : SyncManifestEntry) : Json :=
  .obj [("article_id", .num e.article_id), ("title", .str e.title),
        ("file_path", .str e.file_path), ("synced_at", .str e.synced_at),
        ("comments_fetched", .bool e.comments_fetched)]

/-- `SyncManifest.model_dump_json` (as a JSON value). -/
def SyncManifest.toJson (m : SyncManifest) : Json :=
  .obj [("user_id", .num m.user_id), ("last_sync", .str m.last_sync),
        ("articles", .obj (m.articles.map fun p => (p.1, p.2.toJson)))]

/-! ### `storage.py` — manifest persistence (lines 127–164) -/

/-- The observable state of `<data_dir>/manifest.json`:
  * `absent`     — the file does not exist (storage.py line 138);
  * `unparsable` — text that `json.loads` rejects (`json.JSONDecodeError`)
                   or undecodable bytes (`UnicodeDecodeError`, a
                   `ValueError`) — both caught at line 144;
  * `parsed j`   — text that parses to the JSON value `j`. -/
inductive ManifestFile where
  | absent
  | unparsable
  | parsed (j : Json)
deriving Repr

/-- `storage.load_manifest` (lines 127–146): absent, unparsable or
invalid files all yield `SyncManifest()`. -/
def load_manifest : ManifestFile → SyncManifest
  | .absent => SyncManifest.empty
  | .unparsable => SyncManifest.empty
  | .parsed j =>
    match validateManifest j with
    | some m => m
    | none => SyncManifest.empty

/-- `storage.save_manifest` (lines 149–164): sets `manifest.last_sync` to
the current time (oracle argument `now`), then writes the serialized
manifest.  Returns the mutated in-memory manifest and the written JSON. -/
def save_manifest (now : String) (manifest : SyncManifest) : SyncManifest × Json :=
  let m := { manifest with last_sync := now }
  (m, m.toJson)

/-! ### `api.py` — the resilient request layer (lines 10–12, 145–216) -/

def MAX_RETRIES : Nat := 5
def RETRY_BASE_DELAY : ℚ := 30
def RETRY_JITTER : ℚ := 1/2

/-- The observable parts of one `httpx.Response`:
  * `statusOk`    — `raise_for_status()` does not raise (2xx status);
  * `contentType` — `resp.headers.get("content-type", "")`;
  * `jsonBody`    — result of `resp.json()` (`none` = `JSONDecodeError`);
  * `retryAfter`  — the `Retry-After` header: `none` when absent (an empty
    header value is falsy at line 190 and behaves identically), otherwise
    the result of `float(retry_after)` (`some none` = `ValueError`). -/
structure HttpResponse where
  statusOk : Bool := true
  contentType : String := ""
  jsonBody : Option Json := none
  retryAfter : Option (Option ℚ) := none

/-- Substring test on character lists (Python's `in` on strings). -/
def listContains (needle : List Char) : List Char → Bool
  | [] => needle.isEmpty
  | c :: rest => needle.isPrefixOf (c :: rest) || listContains needle rest

/-- `"json" in content_type` (api.py line 176). -/
def isJsonContentType (contentType : String) : Bool :=
  listContains "json".toList contentType.toList

/-- How `_request_with_retry` terminates abnormally:
  * `httpStatus`   — `resp.raise_for_status()` raised (propagates, no retry);
  * `jsonDecode`   — `RuntimeError` at api.py line 182 (JSON content type
    but unparsable body, no retry);
  * `wafExhausted` — `RuntimeError` at api.py line 212 after all
    `MAX_RETRIES` attempts returned non-JSON. -/
inductive RequestError where
  | httpStatus
  | jsonDecode
  | wafExhausted
deriving Repr, DecidableEq

/-- `base_delay` computation (api.py lines 189–196). -/
def backoffBase (resp : HttpResponse) (attempt : Nat) : ℚ :=
  match resp.retryAfter with
  | some (some q) => q
  | some none => RETRY_BASE_DELAY * attempt
  | none => RETRY_BASE_DELAY * attempt

/-- The loop body of `_request_with_retry` (api.py lines 169–216).
`respond n` is the response the server gives to the `n`-th attempt and
`jitter n` the value drawn by `random.uniform(1 - RETRY_JITTER,
1 + RETRY_JITTER)` on the `n`-th attempt.  `remaining` counts the
iterations the `for` loop has left (`MAX_RETRIES + 1 - attempt`); the
`remaining = 0` case is the loop falling through, which cannot happen.
Accumulates the `time.sleep` durations in `sleeps`. -/
def requestAttempt (respond : Nat → HttpResponse) (jitter : Nat → ℚ) :
    Nat → Nat → List ℚ → Except RequestError Json × List ℚ
  | _, 0, sleeps => (.error .wafExhausted, sleeps)
  | attempt, remaining + 1, sleeps =>
    let resp := respond attempt
    if !resp.statusOk then (.error .httpStatus, sleeps)
    else if isJsonContentType resp.contentType then
      match resp.jsonBody with
      | some j => (.ok j, sleeps)
      | none => (.error .jsonDecode, sleeps)
    else if attempt < MAX_RETRIES then
      requestAttempt respond jitter (attempt + 1) remaining
        (sleeps ++ [backoffBase resp attempt * jitter attempt])
    else (.error .wafExhausted, sleeps)

/-- `_request_with_retry` (api.py lines 145–216). -/
def request_with_retry (respond : Nat → HttpResponse) (jitter : Nat → ℚ) :
    Except RequestError Json × List ℚ :=
  requestAttempt respond jitter 1 MAX_RETRIES []

/-! ### `api.py` — `fetch_all_author_comments` (lines 98–142) -/

/-- `comment.user and comment.user.id == author_id` (api.py line 127). -/
def isAuthorComment (authorId : Int) (c : Comment) : Bool :=
  match c.user with
  | some u => u.id == authorId
  | none => false

/-- The pagination loop of `fetch_all_author_comments` (api.py lines
121–133).  `pages` holds the responses the comments endpoint returns to
the successive requests `page = p, p+1, …`; the loop stops after a page
`resp` with `page >= resp.maxPage` or with no comments, so a response
list long enough for the loop (guaranteed by the hypotheses of the
theorems below) is never exhausted. -/
def collectAuthorComments (authorId : Int) : List CommentsResponse → Int → List Comment
  | [], _ => []
  | resp :: rest, page =>
    let batch := resp.comments.filter (isAuthorComment authorId)
    if resp.maxPage ≤ page || resp.comments.isEmpty then batch
    else batch ++ collectAuthorComments authorId rest (page + 1)

/-- `fetch_all_author_comments` (api.py lines 98–142): collect the
author's comments over all visited pages, then
`author_comments.sort(key=lambda c: c.created_at)` — a stable sort,
modelled by `List.mergeSort` (also stable). -/
def fetch_all_author_comments (authorId : Int) (pages : List CommentsResponse) :
    List Comment :=
  (collectAuthorComments authorId pages 1).mergeSort
    fun a b => decide (a.created_at ≤ b.created_at)

/-! ### `content.py` — HTML→Markdown (lines 82–250)

The input of `html_to_markdown` is modelled after the point where lxml
has parsed `"<div>" + html_content + "</div>"`: an element tree.  Each
element carries `tag`, attributes, `text` (text before the first child),
children, and `tail` (text following the element); lxml's `None` text
and Python's falsy `""` behave identically in this code, so both are
modelled as `""`.  Non-string tags (comments, processing instructions)
are not modelled; no claim concerns them. -/

inductive HNode where
  | mk (tag : String) (attrs : List (String × String)) (text : String)
       (children : List HNode) (tail : String)

def HNode.tag : HNode → String
  | .mk t _ _ _ _ => t

def HNode.attrs : HNode → List (String × String)
  | .mk _ a _ _ _ => a

def HNode.text : HNode → String
  | .mk _ _ x _ _ => x

def HNode.children : HNode → List HNode
  | .mk _ _ _ c _ => c

def HNode.tail : HNode → String
  | .mk _ _ _ _ t => t

/-- `node.get(key, "")`. -/
def HNode.get (n : HNode) (key : String) : String :=
  (alookup key n.attrs).getD ""

/-- The `chr(125)` closing-brace character used by lxml namespace tags. -/
def nsBraceChar : Char := Char.ofNat 125

/-- `_local_tag` (content.py lines 239–243): strip a `ns-uri`-n-brace
namespace marker, else lowercase. -/
def localTag (tag : String) : String :=
  if tag.toList.contains nsBraceChar then
    String.mk ((tag.toList.dropWhile (· ≠ nsBraceChar)).drop 1)
  else String.mk (tag.toList.map Char.toLower)

/-- Python `str.strip()` whitespace (ASCII portion). -/
def isPySpace (c : Char) : Bool :=
  c == ' ' || c == '\t' || c == '\n' || c == '\r' ||
    c == Char.ofNat 11 || c == Char.ofNat 12

/-- Python `str.strip()`. -/
def pyStrip (s : String) : String :=
  String.mk (((s.toList.dropWhile isPySpace).reverse.dropWhile isPySpace).reverse)

mutual

/-- `_get_all_text` (content.py lines 234–236):
`etree.tostring(node, method="text")` concatenates `text` and `tail`
recursively, including the node's own tail (`with_tail` defaults to
true). -/
def allText (n : HNode) : String :=
  match n with
  | .mk _ _ text children tail => text ++ allTextList children ++ tail
termination_by structural n

/-- `allText` over a child list. -/
def allTextList : List HNode → String
  | [] => ""
  | c :: cs => allText c ++ allTextList cs

end

/-- Protocol-relative source rewrite (content.py lines 168–169 and 216–217). -/
def fixSrc (src : String) : String :=
  if src.startsWith "//" then "https:" ++ src else src

/-- One child's contribution in `_inline_to_markdown` (content.py lines
196–227).  An empty `inner`/`href`/`src` is falsy in Python; a branch that
appends nothing contributes `""` to the final `"".join(parts)`. -/
def inlinePart (child : HNode) : String :=
  let tag := localTag child.tag
  let inner := pyStrip (allText child)
  if tag = "a" then
    let href := child.get "href"
    if href ≠ "" ∧ inner ≠ "" then "[" ++ inner ++ "](" ++ href ++ ")"
    else if inner ≠ "" then inner
    else ""
  else if tag = "strong" ∨ tag = "b" then
    if inner ≠ "" then "**" ++ inner ++ "**" else ""
  else if tag = "em" ∨ tag = "i" then
    if inner ≠ "" then "*" ++ inner ++ "*" else ""
  else if tag = "img" then
    let src := child.get "src"
    let alt := child.get "alt"
    if src ≠ "" then "![" ++ alt ++ "](" ++ fixSrc src ++ ")" else ""
  else if tag = "br" then "\n"
  else if tag = "code" then
    if inner ≠ "" then "`" ++ inner ++ "`" else ""
  else
    if inner ≠ "" then inner else ""

/-- The child loop of `_inline_to_markdown`: each child's part followed by
its tail (appended only when truthy — identical to appending `""`). -/
def inlineChildren : List HNode → String
  | [] => ""
  | c :: cs => inlinePart c ++ c.tail ++ inlineChildren cs

/-- `_inline_to_markdown` (content.py lines 189–231). -/
def inlineToMarkdown (n : HNode) : String :=
  n.text ++ inlineChildren n.children

/-- `int(tag[1])` for the heading tags handled at content.py line 122. -/
def headingLevel (tag : String) : Nat :=
  if tag = "h1" then 1 else if tag = "h2" then 2 else if tag = "h3" then 3
  else if tag = "h4" then 4 else if tag = "h5" then 5 else if tag = "h6" then 6
  else 0

/-- `'#' * level`. -/
def hashes (level : Nat) : String :=
  String.mk (List.replicate level '#')

/-- `text.split("\n")` on character lists; never returns `[]`. -/
def splitNlChars : List Char → List (List Char)
  | [] => [[]]
  | c :: rest =>
    if c == '\n' then [] :: splitNlChars rest
    else
      match splitNlChars rest with
      | line :: more => (c :: line) :: more
      | [] => [[c]]

/-- `text.split("\n")` (content.py line 148). -/
def splitNl (s : String) : List String :=
  (splitNlChars s.toList).map String.mk

/-- The `enumerate(node)` loop of the `ul`/`ol` branch (content.py lines
153–161): every child is enumerated, only `li`-tagged children produce a
line, and the ordinal prefix counts all children. -/
def listItems (ordered : Bool) : List HNode → Nat → List String
  | [], _ => []
  | li :: rest, i =>
    (if localTag li.tag = "li" then
      [(if ordered then toString (i + 1) ++ "." else "-") ++ " " ++ pyStrip (allText li)]
    else []) ++ listItems ordered rest (i + 1)

mutual

/-- `_walk_node` (content.py lines 117–186), appending to `lines`. -/
def walkNode (n : HNode) (lines : List String) : List String :=
  match n with
  | .mk tag0 _ text children _ =>
    let tag := localTag tag0
    if tag = "h1" ∨ tag = "h2" ∨ tag = "h3" ∨ tag = "h4" ∨ tag = "h5" ∨ tag = "h6" then
      let t := pyStrip (allText n)
      if t ≠ "" then lines ++ ["", hashes (headingLevel tag) ++ " " ++ t, ""] else lines
    else if tag = "p" then
      let t := pyStrip (inlineToMarkdown n)
      if t ≠ "" then lines ++ ["", t, ""] else lines
    else if tag = "br" then lines ++ [""]
    else if tag = "blockquote" then
      let inner := walkChildrenPlain children []
      let t := if inner = [] then pyStrip (allText n) else String.intercalate "\n" inner
      (lines ++ (splitNl t).map (fun line => "> " ++ line)) ++ [""]
    else if tag = "ul" ∨ tag = "ol" then
      (lines ++ [""]) ++ listItems (tag = "ol") children 0 ++ [""]
    else if tag = "img" then
      let src := n.get "src"
      let alt := n.get "alt"
      if src ≠ "" then lines ++ ["![" ++ alt ++ "](" ++ fixSrc src ++ ")"] else lines
    else if tag = "hr" then lines ++ ["", "---", ""]
    else
      let lines := if text ≠ "" then lines ++ [text] else lines
      walkChildrenTails children lines
termination_by structural n

/-- The `blockquote` child loop (content.py lines 145–146): child tails
are not appended. -/
def walkChildrenPlain : List HNode → List String → List String
  | [], lines => lines
  | c :: cs, lines => walkChildrenPlain cs (walkNode c lines)

/-- The default recursion (content.py lines 183–186): walk each child,
then append its tail when truthy. -/
def walkChildrenTails : List HNode → List String → List String
  | [], lines => lines
  | c :: cs, lines =>
    let lines := walkNode c lines
    let lines := if c.tail ≠ "" then lines ++ [c.tail] else lines
    walkChildrenTails cs lines

end

/-- `"\n".join(lines)` (content.py line 111) — the text produced by the
document walk, before the blank-line cleanup. -/
def producedText (body : HNode) : String :=
  String.intercalate "\n" (walkNode body [])

/-- What a maximal run of `run` newline characters becomes under
`re.sub(r"\n\x7b3,\x7d", "\n\n", text)`. -/
def emitNl (run : Nat) : List Char :=
  if 3 ≤ run then ['\n', '\n'] else List.replicate run '\n'

/-- `re.sub` of the pattern above, scanning with the count `run` of
newlines read since the last non-newline character: each maximal run of
three or more newlines becomes exactly two, shorter runs are kept. -/
def collapseNlAux : List Char → Nat → List Char
  | [], run => emitNl run
  | c :: rest, run =>
    if c = '\n' then collapseNlAux rest (run + 1)
    else emitNl run ++ c :: collapseNlAux rest 0

/-- The blank-line cleanup regex (content.py line 113) on a character
list. -/
def collapseNlChars (l : List Char) : List Char :=
  collapseNlAux l 0

/-- The blank-line cleanup regex (content.py line 113). -/
def collapseNewlines (s : String) : String :=
  String.mk (collapseNlChars s.toList)

/-- `html_to_markdown` (content.py lines 82–114) on a parsed fragment:
the walk, the blank-line cleanup, and the final `.strip()`. -/
def html_to_markdown (body : HNode) : String :=
  pyStrip (collapseNewlines (producedText body))

/-- Three consecutive newline characters occur somewhere. -/
def hasTripleNl : List Char → Bool
  | a :: b :: c :: rest =>
    (a == '\n' && b == '\n' && c == '\n') || hasTripleNl (b :: c :: rest)
  | _ => false

/-- Three consecutive empty lines ("blank lines") occur somewhere. -/
def hasTripleEmptyLine : List (List Char) → Bool
  | a :: b :: c :: rest =>
    (a.isEmpty && b.isEmpty && c.isEmpty) || hasTripleEmptyLine (b :: c :: rest)
  | _ => false

/-! ### `crawler.py` — `backfill_comments` (lines 243–319)

The filesystem is modelled as an association list `path ↦ content`,
remote fetches by an oracle `fetch : article-id string → Option (List
Comment)` (`none` = the `fetch_all_author_comments` call raised), and
the clock by an oracle `now`.  Pacing (`delay.wait/success/failure`,
batch pauses) only sleeps and is dropped from the state.  The Python
`int(article_id_str)` conversion is a bijective re-encoding of the key
for the request and does not affect the stored state. -/

def fsGet (fs : List (String × String)) (path : String) : String :=
  (alookup path fs).getD ""

def fsSet (fs : List (String × String)) (path content : String) :
    List (String × String) :=
  dictInsert path content fs

/-- Modelled from the spec: the "Supplementary Notes" remarks block,
one timestamped sub-heading per remark (spec §6); its exact text is not
fixed by the sources (see `append_comments_to_article`). -/
def remarksSection (comments : List Comment) : String :=
  "\n---\n\n## 补充说明\n" ++
    String.join (comments.map fun c => "\n### " ++ toString c.created_at ++ "\n\n" ++ c.text ++ "\n")

/-- Modelled from the spec: `append_comments_to_article` is imported from
`scraper.storage` (crawler.py lines 68–73) but its definition is not in
the sources.  Spec §4.4: on success the backfill "*appends* a remarks
section to the already-saved file (never rewrites prior content)". -/
def append_comments_to_article (fs : List (String × String)) (path : String)
    (comments : List Comment) : List (String × String) :=
  fsSet fs path (fsGet fs path ++ remarksSection comments)

/-- State threaded through the backfill loop: the in-memory manifest, the
file tree, the successive manifests persisted by `save_manifest`, and the
`backfilled` counter. -/
structure BackfillState where
  manifest : SyncManifest
  fs : List (String × String)
  saves : List SyncManifest
  backfilled : Nat
deriving Repr, DecidableEq

/-- One iteration of the backfill loop (crawler.py lines 274–316) on the
pending entry `(aid, entry)`:
  * fetch raised → `delay.failure(); continue` (state unchanged);
  * fetch returned `comments` → append to the file only when `comments`
    is truthy (line 310), set `entry.comments_fetched = True` (the entry
    object is shared with `manifest.articles`, modelled by `dictInsert`
    at its key), `save_manifest`, count it. -/
def backfillStep (fetch : String → Option (List Comment)) (now : String)
    (st : BackfillState) (kv : String × SyncManifestEntry) : BackfillState :=
  match fetch kv.1 with
  | none => st
  | some comments =>
    let fs' := if comments.isEmpty then st.fs
      else append_comments_to_article st.fs kv.2.file_path comments
    let entry' := { kv.2 with comments_fetched := true }
    let manifest' := { st.manifest with
      articles := dictInsert kv.1 entry' st.manifest.articles }
    let saved := save_manifest now manifest'
    { manifest := saved.1, fs := fs', saves := st.saves ++ [saved.1],
      backfilled := st.backfilled + 1 }

/-- The pending selection (crawler.py lines 260–264): entries with
`comments_fetched=False`, in manifest order. -/
def pendingOf (manifest : SyncManifest) : List (String × SyncManifestEntry) :=
  manifest.articles.filter fun kv => !kv.2.comments_fetched

/-- `backfill_comments` (crawler.py lines 243–319). -/
def backfill_comments (fetch : String → Option (List Comment)) (now : String)
    (manifest0 : SyncManifest) (fs0 : List (String × String)) : BackfillState :=
  (pendingOf manifest0).foldl (backfillStep fetch now)
    { manifest := manifest0, fs := fs0, saves := [], backfilled := 0 }

/-! ## Theorems -/

/-- C8: for the Adaptive Pacer in every state, `success()` replaces the
current delay with `max(min_delay, 0.9 × current)` and `failure()`
replaces it with `min(max_delay, 2 × current)`; no other field changes. -/
theorem adaptiveDelay_success_failure_update (d : AdaptiveDelay) :
    d.success = { d with current := max d.min_delay (d.current * (9/10)) } ∧
    d.failure = { d with current := min d.max_delay (d.current * 2) } :=
  ⟨rfl, rfl⟩

/-- C9 counterexample: an `AdaptiveDelay` whose delay lies within
`[min_delay, max_delay]` and `min_delay ≤ max_delay`, yet one `success()`
call moves the delay above `max_delay` (negative delays shrink toward 0
under `* 0.9`, escaping the interval). -/
theorem adaptiveDelay_bounds_counterexample :
    let d : AdaptiveDelay := { current := -1, min_delay := -1, max_delay := -1, jitter := 1/2 }
    d.min_delay ≤ d.max_delay ∧ d.min_delay ≤ d.current ∧ d.current ≤ d.max_delay ∧
      ¬ (d.applyOps [DelayOp.success]).current ≤ d.max_delay := by
  refine ⟨le_refl _, le_refl _, le_refl _, ?_⟩
  intro h
  simp only [AdaptiveDelay.applyOps, List.foldl, AdaptiveDelay.applyOp,
    AdaptiveDelay.success] at h
  norm_num at h

/-- Bounds invariant of one `success()`/`failure()` call (helper). -/
theorem adaptiveDelay_applyOp_bounds (d : AdaptiveDelay) (op : DelayOp)
    (h0 : 0 ≤ d.min_delay) (hmm : d.min_delay ≤ d.max_delay)
    (hlo : d.min_delay ≤ d.current) (hhi : d.current ≤ d.max_delay) :
    (d.applyOp op).min_delay = d.min_delay ∧ (d.applyOp op).max_delay = d.max_delay ∧
    (d.applyOp op).min_delay ≤ (d.applyOp op).current ∧
    (d.applyOp op).current ≤ (d.applyOp op).max_delay := by
  have hc0 : 0 ≤ d.current := le_trans h0 hlo
  cases op with
  | success =>
    refine ⟨rfl, rfl, le_max_left _ _, ?_⟩
    exact max_le hmm (le_trans (mul_le_of_le_one_right hc0 (by norm_num)) hhi)
  | failure =>
    refine ⟨rfl, rfl, ?_, min_le_left _ _⟩
    exact le_min hmm (le_trans hlo (le_mul_of_one_le_right hc0 (by norm_num)))

/-- C9 (amended: the bounds additionally require `0 ≤ min_delay`; with a
negative band the multiplicative updates can escape it, see the
counterexample): for every `AdaptiveDelay` with `0 ≤ min_delay ≤
max_delay` and a current delay inside `[min_delay, max_delay]`, any
finite sequence of `success()`/`failure()` calls keeps the delay inside
the band, and `wait()` never modifies the state. -/
theorem adaptiveDelay_bounds_invariant (d : AdaptiveDelay) (ops : List DelayOp)
    (h0 : 0 ≤ d.min_delay) (hmm : d.min_delay ≤ d.max_delay)
    (hlo : d.min_delay ≤ d.current) (hhi : d.current ≤ d.max_delay) :
    (d.min_delay ≤ (d.applyOps ops).current ∧
      (d.applyOps ops).current ≤ d.max_delay) ∧
    ∀ (d' : AdaptiveDelay) (u : ℚ), (d'.wait u).1 = d' := by
  refine ⟨?_, fun _ _ => rfl⟩
  induction ops generalizing d with
  | nil => exact ⟨hlo, hhi⟩
  | cons op rest ih =>
    obtain ⟨e1, e2, b1, b2⟩ := adaptiveDelay_applyOp_bounds d op h0 hmm hlo hhi
    have := ih (d.applyOp op) (e1 ▸ h0) (by rw [e1, e2]; exact hmm) b1 b2
    rw [e1, e2] at this
    simpa [AdaptiveDelay.applyOps] using this

/-- C9 witness: a concrete run of the amended invariant. -/
theorem adaptiveDelay_bounds_invariant_witness :
    (AdaptiveDelay.init 5).min_delay ≤
      ((AdaptiveDelay.init 5).applyOps [DelayOp.failure, DelayOp.success]).current ∧
    ((AdaptiveDelay.init 5).applyOps [DelayOp.failure, DelayOp.success]).current ≤
      (AdaptiveDelay.init 5).max_delay :=
  (adaptiveDelay_bounds_invariant (AdaptiveDelay.init 5)
    [DelayOp.failure, DelayOp.success]
    (by norm_num [AdaptiveDelay.init]) (by norm_num [AdaptiveDelay.init])
    (by norm_num [AdaptiveDelay.init]) (by norm_num [AdaptiveDelay.init])).1

/-- C10: `save_manifest` mutates only `last_sync` (set to the save time);
the owning user id and the article mapping are unchanged in the in-memory
store it persists. -/
theorem save_manifest_frame (m : SyncManifest) (now : String) :
    (save_manifest now m).1 = { m with last_sync := now } ∧
    (save_manifest now m).1.user_id = m.user_id ∧
    (save_manifest now m).1.articles = m.articles ∧
    (save_manifest now m).1.last_sync = now :=
  ⟨rfl, rfl, rfl, rfl⟩

/-- C4: loading the checkpoint store from an absent, unparsable or
invalid manifest file returns the empty store (no entries, default user
id); `load_manifest` is total, so no error propagates to the caller. -/
theorem load_manifest_robust :
    load_manifest .absent = SyncManifest.empty ∧
    load_manifest .unparsable = SyncManifest.empty ∧
    (∀ j, validateManifest j = none → load_manifest (.parsed j) = SyncManifest.empty) ∧
    SyncManifest.empty.user_id = 0 ∧ SyncManifest.empty.articles = [] := by
  refine ⟨rfl, rfl, ?_, rfl, rfl⟩
  intro j hj
  simp [load_manifest, hj]

/-- C4 witness: a manifest file holding the JSON number `5` fails
validation and loads as the empty store. -/
theorem load_manifest_robust_witness :
    validateManifest (Json.num 5) = none ∧
    load_manifest (.parsed (Json.num 5)) = SyncManifest.empty :=
  ⟨rfl, load_manifest_robust.2.2.1 (Json.num 5) rfl⟩


/-- Every character surviving `replaceIneligible` is eligible (the
underscore substitute itself is a word character). -/
theorem replaceIneligible_eligible (l : List Char) :
    ∀ c ∈ replaceIneligible l, isEligibleChar c = true := by
  intro c hc
  simp only [replaceIneligible, List.mem_map] at hc
  obtain ⟨a, -, ha⟩ := hc
  subst ha
  by_cases h : isEligibleChar a = true
  · rw [if_pos h]; exact h
  · rw [if_neg h]; decide

/-- `collapseUnderscores` only removes characters. -/
theorem collapseUnderscores_subset : ∀ l : List Char, collapseUnderscores l ⊆ l
  | [] => by simp [collapseUnderscores]
  | [c] => by simp [collapseUnderscores]
  | c :: c' :: rest => by
    intro x hx
    rw [collapseUnderscores] at hx
    by_cases h : c == '_' && c' == '_'
    · rw [if_pos h] at hx
      exact List.mem_cons_of_mem c (collapseUnderscores_subset (c' :: rest) hx)
    · rw [if_neg h] at hx
      rcases List.mem_cons.1 hx with h' | h'
      · exact h' ▸ List.mem_cons_self _ _
      · exact List.mem_cons_of_mem c (collapseUnderscores_subset (c' :: rest) h')

/-- `stripUnderscores` only removes characters. -/
theorem stripUnderscores_subset (l : List Char) : stripUnderscores l ⊆ l := by
  intro x hx
  simp only [stripUnderscores, List.mem_reverse] at hx
  exact List.dropWhile_subset _ (by simpa using List.dropWhile_subset _ hx)

/-- `truncateRstrip` only removes characters. -/
theorem truncateRstrip_subset (maxLength : Nat) (l : List Char) :
    truncateRstrip maxLength l ⊆ l := by
  intro x hx
  simp only [truncateRstrip, List.mem_reverse] at hx
  exact List.take_subset _ _ (by simpa using List.dropWhile_subset _ hx)

/-- `truncateRstrip` output fits the length budget. -/
theorem truncateRstrip_length (maxLength : Nat) (l : List Char) :
    (truncateRstrip maxLength l).length ≤ maxLength := by
  simp only [truncateRstrip, List.length_reverse]
  calc ((l.take maxLength).reverse.dropWhile (· == '_')).length
      ≤ (l.take maxLength).reverse.length := (List.dropWhile_sublist _).length_le
    _ ≤ maxLength := by simp [List.length_take]

/-- The final character list of a sanitized filename, by the two branch
conditions of `sanitize_filename`. -/
theorem sanitize_filename_toList (s : String) :
    (sanitize_filename s 50).toList =
      (let safe := stripUnderscores (collapseUnderscores (replaceIneligible s.toList));
       let safe := if safe.length > 50 then truncateRstrip 50 safe else safe;
       if safe.isEmpty then "untitled".toList else safe) := by
  simp only [sanitize_filename]
  split <;> split <;> rfl

/-- C6: the sanitized filename consists only of word characters and
hyphens (hence no path separators), fits in 50 characters, and an input
with no eligible characters sanitizes to the placeholder `"untitled"`. -/
theorem sanitize_filename_spec (s : String) :
    (∀ c ∈ (sanitize_filename s 50).toList, isWordChar c = true ∨ c = '-') ∧
    (∀ c ∈ (sanitize_filename s 50).toList, c ≠ '/' ∧ c ≠ '\\') ∧
    (sanitize_filename s 50).toList.length ≤ 50 ∧
    ((∀ c ∈ s.toList, isEligibleChar c = false) → sanitize_filename s 50 = "untitled") := by
  have huntitled : ∀ x ∈ "untitled".toList, isEligibleChar x = true := by decide
  have heligible : ∀ c ∈ (sanitize_filename s 50).toList, isEligibleChar c = true := by
    intro c hc
    rw [sanitize_filename_toList] at hc
    simp only [] at hc
    split at hc
    · split at hc
      · exact huntitled c hc
      · exact replaceIneligible_eligible _ _ (collapseUnderscores_subset _
          (stripUnderscores_subset _ (truncateRstrip_subset _ _ hc)))
    · split at hc
      · exact huntitled c hc
      · exact replaceIneligible_eligible _ _ (collapseUnderscores_subset _
          (stripUnderscores_subset _ hc))
  refine ⟨?_, ?_, ?_, ?_⟩
  · intro c hc
    have h := heligible c hc
    simp only [isEligibleChar, Bool.or_eq_true, beq_iff_eq] at h
    exact h
  · intro c hc
    have h := heligible c hc
    constructor <;> rintro rfl <;> exact absurd h (by decide)
  · rw [sanitize_filename_toList]
    simp only []
    split
    · split
      · decide
      · exact truncateRstrip_length _ _
    · split
      · decide
      · next h _ => omega
  · intro hnone
    have hall : ∀ c ∈ replaceIneligible s.toList, c = '_' := by
      intro c hc
      simp only [replaceIneligible, List.mem_map] at hc
      obtain ⟨a, ha, rfl⟩ := hc
      simp [hnone a ha]
    have hstrip : stripUnderscores (collapseUnderscores (replaceIneligible s.toList)) = [] := by
      have hdrop : (collapseUnderscores (replaceIneligible s.toList)).dropWhile (· == '_') = [] := by
        rw [List.dropWhile_eq_nil_iff]
        intro x hx
        simp [hall x (collapseUnderscores_subset _ hx)]
      unfold stripUnderscores
      rw [hdrop]
      rfl
    have hlist : (sanitize_filename s 50).toList = "untitled".toList := by
      rw [sanitize_filename_toList]
      simp only []
      rw [hstrip]
      norm_num
    exact String.ext hlist

/-- C6 witness: `"///"` has no eligible characters and sanitizes to the
placeholder. -/
theorem sanitize_filename_spec_witness :
    (∀ c ∈ "///".toList, isEligibleChar c = false) ∧
    sanitize_filename "///" 50 = "untitled" :=
  ⟨by decide, (sanitize_filename_spec "///").2.2.2 (by decide)⟩

/-- One non-final retry step of `_request_with_retry` (helper): a 2xx
non-JSON response sleeps `backoffBase × jitter` and moves to the next
attempt. -/
theorem requestAttempt_retry_step (respond : Nat → HttpResponse) (jitter : Nat → ℚ)
    (attempt remaining : Nat) (sleeps : List ℚ)
    (hok : (respond attempt).statusOk = true)
    (hct : isJsonContentType (respond attempt).contentType = false)
    (hlt : attempt < MAX_RETRIES) :
    requestAttempt respond jitter attempt (remaining + 1) sleeps =
      requestAttempt respond jitter (attempt + 1) remaining
        (sleeps ++ [backoffBase (respond attempt) attempt * jitter attempt]) := by
  simp [requestAttempt, hok, hct, hlt]

/-- The final attempt of `_request_with_retry` (helper): a 2xx non-JSON
response on attempt `MAX_RETRIES` raises the permanent failure. -/
theorem requestAttempt_final_step (respond : Nat → HttpResponse) (jitter : Nat → ℚ)
    (remaining : Nat) (sleeps : List ℚ)
    (hok : (respond MAX_RETRIES).statusOk = true)
    (hct : isJsonContentType (respond MAX_RETRIES).contentType = false) :
    requestAttempt respond jitter MAX_RETRIES (remaining + 1) sleeps =
      (.error .wafExhausted, sleeps) := by
  simp [requestAttempt, hok, hct]

/-- C2: when every one of the 5 attempts yields a 2xx response whose
content type does not indicate JSON, `_request_with_retry` sleeps before
each of the 4 retries for `backoffBase × jitter`, where `backoffBase` is
the parsed `Retry-After` header when present and parseable and
`RETRY_BASE_DELAY * attempt = 30 × attempt` otherwise, `jitter n` being
the draw of `random.uniform(1 - 0.5, 1 + 0.5)` on attempt `n`; after the
5th attempt it fails permanently with the `RuntimeError` of api.py line
212. -/
theorem request_with_retry_waf_exhaustion (respond : Nat → HttpResponse) (jitter : Nat → ℚ)
    (hok : ∀ n, 1 ≤ n → n ≤ 5 → (respond n).statusOk = true)
    (hct : ∀ n, 1 ≤ n → n ≤ 5 → isJsonContentType (respond n).contentType = false) :
    request_with_retry respond jitter =
      (.error .wafExhausted,
        [backoffBase (respond 1) 1 * jitter 1, backoffBase (respond 2) 2 * jitter 2,
         backoffBase (respond 3) 3 * jitter 3, backoffBase (respond 4) 4 * jitter 4]) ∧
    (∀ resp : HttpResponse, ∀ n : Nat,
      (resp.retryAfter = none → backoffBase resp n = RETRY_BASE_DELAY * n) ∧
      (resp.retryAfter = some none → backoffBase resp n = RETRY_BASE_DELAY * n) ∧
      (∀ q, resp.retryAfter = some (some q) → backoffBase resp n = q)) := by
  constructor
  · show requestAttempt respond jitter 1 (4 + 1) [] = _
    rw [requestAttempt_retry_step respond jitter 1 4 []
      (hok 1 (by norm_num) (by norm_num)) (hct 1 (by norm_num) (by norm_num)) (by decide)]
    show requestAttempt respond jitter 2 (3 + 1) _ = _
    rw [requestAttempt_retry_step respond jitter 2 3 _
      (hok 2 (by norm_num) (by norm_num)) (hct 2 (by norm_num) (by norm_num)) (by decide)]
    show requestAttempt respond jitter 3 (2 + 1) _ = _
    rw [requestAttempt_retry_step respond jitter 3 2 _
      (hok 3 (by norm_num) (by norm_num)) (hct 3 (by norm_num) (by norm_num)) (by decide)]
    show requestAttempt respond jitter 4 (1 + 1) _ = _
    rw [requestAttempt_retry_step respond jitter 4 1 _
      (hok 4 (by norm_num) (by norm_num)) (hct 4 (by norm_num) (by norm_num)) (by decide)]
    show requestAttempt respond jitter MAX_RETRIES (0 + 1) _ = _
    rw [requestAttempt_final_step respond jitter 0 _
      (hok 5 (by norm_num) (by norm_num)) (hct 5 (by norm_num) (by norm_num))]
    simp
  · intro resp n
    refine ⟨fun h => ?_, fun h => ?_, fun q h => ?_⟩ <;> simp [backoffBase, h]

/-- C2 witness: an always-HTML server with `Retry-After` absent and unit
jitter draws produces sleeps `30, 60, 90, 120` and the permanent
failure. -/
theorem request_with_retry_waf_exhaustion_witness :
    request_with_retry (fun _ => { statusOk := true, contentType := "text/html" }) (fun _ => 1) =
      (.error .wafExhausted, [30, 60, 90, 120]) := by
  rw [(request_with_retry_waf_exhaustion
    (fun _ => { statusOk := true, contentType := "text/html" }) (fun _ => 1)
    (fun _ _ _ => rfl) (fun _ _ _ => rfl)).1]
  norm_num [backoffBase, RETRY_BASE_DELAY]

/-- When every page reports `maxPage = number of pages` and only the last
page may be empty, the pagination loop visits every page and collects
exactly the author-filtered comments in page order (helper). -/
theorem collectAuthorComments_eq (authorId : Int) :
    ∀ (ps : List CommentsResponse) (page : Int),
      (∀ r ∈ ps, r.maxPage = page + ps.length - 1) →
      (∀ r ∈ ps.dropLast, r.comments ≠ []) →
      collectAuthorComments authorId ps page =
        (ps.flatMap fun r => r.comments).filter (isAuthorComment authorId)
  | [], page, _, _ => by simp [collectAuthorComments]
  | [r], page, hmax, _ => by
    have h : r.maxPage = page := by
      have := hmax r (by simp)
      simpa using this
    simp [collectAuthorComments, h]
  | r :: r' :: rest, page, hmax, hne => by
    have hgt : ¬ r.maxPage ≤ page := by
      have := hmax r (by simp)
      simp only [List.length_cons] at this
      omega
    have hcomments : r.comments ≠ [] := hne r (by simp)
    have hih := collectAuthorComments_eq authorId (r' :: rest) (page + 1)
      (by
        intro rr hrr
        have := hmax rr (List.mem_cons_of_mem r hrr)
        simp only [List.length_cons] at this ⊢
        omega)
      (by
        intro rr hrr
        exact hne rr (by simpa using Or.inr hrr))
    rw [collectAuthorComments]
    rw [if_neg (by
      simp only [Bool.or_eq_true, decide_eq_true_eq, List.isEmpty_iff]
      rintro (hc | hc)
      · exact hgt hc
      · exact hcomments hc)]
    rw [hih]
    simp [List.filter_append]

/-- C5: under a consistent endpoint (every response reports the total
page count as `maxPage`; only the final page may be empty), the
supplementary-notes retrieval returns exactly the comments whose
embedded user id equals the author id — as a permutation of the
author-filtered concatenation of all pages — and the result is
non-decreasing in `created_at`. -/
theorem fetch_all_author_comments_spec (authorId : Int) (pages : List CommentsResponse)
    (hmax : ∀ r ∈ pages, r.maxPage = pages.length)
    (hne : ∀ r ∈ pages.dropLast, r.comments ≠ []) :
    (∀ c ∈ fetch_all_author_comments authorId pages, isAuthorComment authorId c = true) ∧
    (fetch_all_author_comments authorId pages).Perm
      ((pages.flatMap fun r => r.comments).filter (isAuthorComment authorId)) ∧
    (fetch_all_author_comments authorId pages).Pairwise
      fun a b => a.created_at ≤ b.created_at := by
  have hcoll := collectAuthorComments_eq authorId pages 1
    (by intro r hr; rw [hmax r hr]; omega) hne
  have hperm : (fetch_all_author_comments authorId pages).Perm
      ((pages.flatMap fun r => r.comments).filter (isAuthorComment authorId)) := by
    rw [fetch_all_author_comments, ← hcoll]
    exact List.mergeSort_perm _ _
  refine ⟨?_, hperm, ?_⟩
  · intro c hc
    have := hperm.mem_iff.mp hc
    exact (List.mem_filter.mp this).2
  · have hsorted := @List.sorted_mergeSort Comment
      (fun a b : Comment => decide (a.created_at ≤ b.created_at))
      (by intro a b c hab hbc; simp only [decide_eq_true_eq] at *; omega)
      (by intro a b; rcases Int.le_total a.created_at b.created_at with h | h <;> simp [h])
      (collectAuthorComments authorId pages 1)
    exact hsorted.imp fun h => of_decide_eq_true h

/-- C5 witness: two comment pages with mixed authors; the loop visits
both and keeps exactly author `7`'s comments. -/
theorem fetch_all_author_comments_spec_witness :
    (fetch_all_author_comments 7
      [{ count := 3, page := 1, maxPage := 2,
         comments := [{ id := 1, created_at := 10, user := some { id := 7 } },
                      { id := 2, created_at := 4, user := some { id := 8 } }] },
       { count := 3, page := 2, maxPage := 2,
         comments := [{ id := 3, created_at := 5, user := some { id := 7 } }] }]).Perm
      (([{ count := 3, page := 1, maxPage := 2,
           comments := [{ id := 1, created_at := 10, user := some { id := 7 } },
                        { id := 2, created_at := 4, user := some { id := 8 } }] },
         { count := 3, page := 2, maxPage := 2,
           comments := [{ id := 3, created_at := 5, user := some { id := 7 } }] }].flatMap
            fun r : CommentsResponse => r.comments).filter (isAuthorComment 7)) :=
  (fetch_all_author_comments_spec 7
    [{ count := 3, page := 1, maxPage := 2,
       comments := [{ id := 1, created_at := 10, user := some { id := 7 } },
                    { id := 2, created_at := 4, user := some { id := 8 } }] },
     { count := 3, page := 2, maxPage := 2,
       comments := [{ id := 3, created_at := 5, user := some { id := 7 } }] }]
    (by decide) (by decide)).2.1

/-- Serialization/validation round-trip for one manifest entry (helper). -/
theorem validateEntry_toJson (e : SyncManifestEntry) :
    validateEntry e.toJson = some e := rfl

/-- Serialization/validation round-trip for the entry table (helper). -/
theorem validateEntries_map_toJson (l : List (String × SyncManifestEntry)) :
    validateEntries (l.map fun p => (p.1, p.2.toJson)) = some l := by
  induction l with
  | nil => rfl
  | cons p rest ih =>
    simp [validateEntries, validateEntry_toJson, ih]

/-- Serialization/validation round-trip for the whole manifest (helper). -/
theorem validateManifest_toJson (m : SyncManifest) :
    validateManifest m.toJson = some m := by
  simp [validateManifest, SyncManifest.toJson, jfieldInt, jfieldStr, alookup,
    validateEntries_map_toJson]

/-- C7: saving a `CheckpointStore` and loading the written file back
yields a store with the same owning user id in which `has_article` holds
for every article id present before the save; the loaded store is the
saved one except for the refreshed `last_sync`. -/
theorem manifest_roundtrip (m : SyncManifest) (now : String) :
    load_manifest (.parsed (save_manifest now m).2) = { m with last_sync := now } ∧
    (load_manifest (.parsed (save_manifest now m).2)).user_id = m.user_id ∧
    ∀ aid : Int, m.has_article aid = true →
      (load_manifest (.parsed (save_manifest now m).2)).has_article aid = true := by
  have hload : load_manifest (.parsed (save_manifest now m).2) = { m with last_sync := now } := by
    show load_manifest (.parsed ({ m with last_sync := now } : SyncManifest).toJson) = _
    rw [load_manifest, validateManifest_toJson]
  refine ⟨hload, by rw [hload], ?_⟩
  intro aid h
  rw [hload]
  simpa [SyncManifest.has_article] using h

/-- C7 witness: a store with one entry round-trips; the entry's id is
still reported present after save-then-load. -/
theorem manifest_roundtrip_witness :
    (SyncManifest.empty.add_article { article_id := 999 }).has_article 999 = true ∧
    (load_manifest (.parsed
      (save_manifest "2024-01-01T00:00:00+08:00"
        (SyncManifest.empty.add_article { article_id := 999 })).2)).has_article 999 = true :=
  ⟨by decide,
    (manifest_roundtrip (SyncManifest.empty.add_article { article_id := 999 })
      "2024-01-01T00:00:00+08:00").2.2 999 (by decide)⟩

/-- Dropping the head preserves triple-newline freedom (helper). -/
theorem hasTripleNl_of_cons {x : Char} {l : List Char}
    (h : hasTripleNl (x :: l) = false) : hasTripleNl l = false := by
  match l with
  | [] => rfl
  | [b] => rfl
  | b :: c :: r =>
    rw [hasTripleNl] at h
    exact (Bool.or_eq_false_iff.mp h).2

/-- Consing preserves a triple newline (helper). -/
theorem hasTripleNl_cons_true {x : Char} {l : List Char}
    (h : hasTripleNl l = true) : hasTripleNl (x :: l) = true := by
  by_cases h2 : hasTripleNl (x :: l) = true
  · exact h2
  · have := hasTripleNl_of_cons (Bool.eq_false_iff.mpr h2)
    rw [this] at h
    exact absurd h (by simp)

/-- Prepending preserves a triple newline (helper). -/
theorem hasTripleNl_append_right (t : List Char) {l : List Char}
    (h : hasTripleNl l = true) : hasTripleNl (t ++ l) = true := by
  induction t with
  | nil => exact h
  | cons x xs ih => exact hasTripleNl_cons_true ih

/-- Appending preserves a triple newline (helper). -/
theorem hasTripleNl_append_left : ∀ {l : List Char} (t : List Char),
    hasTripleNl l = true → hasTripleNl (l ++ t) = true
  | [], t, h => by simp [hasTripleNl] at h
  | [a], t, h => by simp [hasTripleNl] at h
  | [a, b], t, h => by simp [hasTripleNl] at h
  | a :: b :: c :: r, t, h => by
    rw [hasTripleNl] at h
    rcases Bool.or_eq_true_iff.mp h with h1 | h2
    · show hasTripleNl (a :: b :: c :: (r ++ t)) = true
      rw [hasTripleNl, h1, Bool.true_or]
    · have := hasTripleNl_append_left t h2
      exact hasTripleNl_cons_true this

/-- An infix of a triple-newline-free list is triple-newline-free
(helper). -/
theorem hasTripleNl_of_infix {l' l : List Char} (hinf : l' <:+: l)
    (h : hasTripleNl l = false) : hasTripleNl l' = false := by
  by_contra hne
  have h' : hasTripleNl l' = true := by simpa using hne
  obtain ⟨s, t, rfl⟩ := hinf
  rw [List.append_assoc] at h
  rw [hasTripleNl_append_right s (hasTripleNl_append_left t h')] at h
  exact absurd h (by simp)

/-- Cons of a non-newline onto a triple-free list is triple-free
(helper). -/
theorem hasTripleNl_cons_of_ne {c : Char} {l : List Char} (hc : ¬ c = '\n')
    (hl : hasTripleNl l = false) : hasTripleNl (c :: l) = false := by
  match l with
  | [] => rfl
  | [b] => rfl
  | b :: d :: r =>
    rw [hasTripleNl]
    simp only [Bool.or_eq_false_iff]
    exact ⟨by simp [hc], hl⟩

/-- One newline before a list not starting with a newline (helper). -/
theorem hasTripleNl_nl_cons {l : List Char} (hh : l.head? ≠ some '\n')
    (hl : hasTripleNl l = false) : hasTripleNl ('\n' :: l) = false := by
  match l with
  | [] => rfl
  | [b] => rfl
  | b :: d :: r =>
    rw [hasTripleNl]
    simp only [Bool.or_eq_false_iff]
    refine ⟨by simp_all, hl⟩

/-- Two newlines before a list not starting with a newline (helper). -/
theorem hasTripleNl_nl_nl_cons {l : List Char} (hh : l.head? ≠ some '\n')
    (hl : hasTripleNl l = false) : hasTripleNl ('\n' :: '\n' :: l) = false := by
  match l with
  | [] => rfl
  | b :: r =>
    have hb : ¬ b = '\n' := by simp_all
    rw [hasTripleNl]
    simp only [Bool.or_eq_false_iff]
    exact ⟨by simp [hb], hasTripleNl_nl_cons (by simp_all) hl⟩

/-- `emitNl` prepends at most two newlines, so it keeps triple-freedom
in front of a list not starting with a newline (helper). -/
theorem hasTripleNl_emitNl_append (run : Nat) {l : List Char}
    (hh : l.head? ≠ some '\n') (hl : hasTripleNl l = false) :
    hasTripleNl (emitNl run ++ l) = false := by
  by_cases h3 : 3 ≤ run
  · rw [emitNl, if_pos h3]
    exact hasTripleNl_nl_nl_cons hh hl
  · rw [emitNl, if_neg h3]
    have : run = 0 ∨ run = 1 ∨ run = 2 := by omega
    rcases this with rfl | rfl | rfl
    · simpa using hl
    · exact hasTripleNl_nl_cons hh hl
    · exact hasTripleNl_nl_nl_cons hh hl

/-- The cleanup scan never outputs three consecutive newlines (helper). -/
theorem collapseNlAux_no_triple : ∀ (l : List Char) (run : Nat),
    hasTripleNl (collapseNlAux l run) = false
  | [], run => by
    rw [collapseNlAux]
    have := hasTripleNl_emitNl_append run (l := []) (by simp) rfl
    simpa using this
  | c :: rest, run => by
    rw [collapseNlAux]
    by_cases hc : c = '\n'
    · rw [if_pos hc]
      exact collapseNlAux_no_triple rest (run + 1)
    · rw [if_neg hc]
      exact hasTripleNl_emitNl_append run (by simp [hc])
        (hasTripleNl_cons_of_ne hc (collapseNlAux_no_triple rest 0))

/-- A triple-free list starts with at most two newlines (helper). -/
theorem takeWhile_nl_le_two : ∀ (l : List Char), hasTripleNl l = false →
    (l.takeWhile (· == '\n')).length ≤ 2
  | [], _ => by simp
  | [a], _ => by
    have h := (List.takeWhile_sublist (l := [a]) (· == '\n')).length_le
    simp only [List.length_cons, List.length_nil] at h
    omega
  | [a, b], _ => by
    have h := (List.takeWhile_sublist (l := [a, b]) (· == '\n')).length_le
    simp only [List.length_cons, List.length_nil] at h
    omega
  | a :: b :: c :: r, h => by
    by_cases ha : a == '\n'
    · by_cases hb : b == '\n'
      · by_cases hc : c == '\n'
        · exfalso
          rw [hasTripleNl, ha, hb, hc] at h
          simp at h
        · simp [List.takeWhile_cons, ha, hb, hc]
      · simp [List.takeWhile_cons, ha, hb]
    · simp [List.takeWhile_cons, ha]

/-- On triple-free input the cleanup scan is the identity, modulo the
pending newline count (helper). -/
theorem collapseNlAux_eq_self : ∀ (l : List Char) (run : Nat),
    hasTripleNl l = false → run + (l.takeWhile (· == '\n')).length ≤ 2 →
    collapseNlAux l run = List.replicate run '\n' ++ l
  | [], run, _, hle => by
    rw [collapseNlAux]
    have h3 : ¬ 3 ≤ run := by simp at hle; omega
    rw [emitNl, if_neg h3]
    simp
  | c :: rest, run, h, hle => by
    rw [collapseNlAux]
    by_cases hc : c = '\n'
    · rw [if_pos hc]
      have h' : hasTripleNl rest = false := hasTripleNl_of_cons h
      have hle' : (run + 1) + (rest.takeWhile (· == '\n')).length ≤ 2 := by
        subst hc
        rw [List.takeWhile_cons, if_pos (by simp)] at hle
        simp only [List.length_cons] at hle
        omega
      rw [collapseNlAux_eq_self rest (run + 1) h' hle']
      subst hc
      simp [List.replicate_succ', List.append_assoc]
    · rw [if_neg hc]
      have h' : hasTripleNl rest = false := hasTripleNl_of_cons h
      have hrun : ¬ 3 ≤ run := by omega
      rw [collapseNlAux_eq_self rest 0 h'
        (by simpa using takeWhile_nl_le_two rest h')]
      rw [emitNl, if_neg hrun]
      simp

/-- On triple-free input the cleanup regex is the identity (helper). -/
theorem collapseNlChars_eq_self {l : List Char} (h : hasTripleNl l = false) :
    collapseNlChars l = l := by
  have := collapseNlAux_eq_self l 0 h
    (by simpa using takeWhile_nl_le_two l h)
  simpa [collapseNlChars] using this

/-- Two-sided strip yields an infix of the input (helper). -/
theorem strip2_infix (p : Char → Bool) (l : List Char) :
    ((l.dropWhile p).reverse.dropWhile p).reverse <:+: l := by
  have h2 : ((l.dropWhile p).reverse.dropWhile p).reverse <+: l.dropWhile p := by
    have := List.reverse_prefix.mpr
      (List.dropWhile_suffix (l := (l.dropWhile p).reverse) p)
    rwa [List.reverse_reverse] at this
  exact h2.isInfix.trans (List.dropWhile_suffix p).isInfix

/-- Two-sided strip leaves no `p`-character at either edge (helper). -/
theorem strip2_edges (p : Char → Bool) (l : List Char) (c : Char) :
    ((((l.dropWhile p).reverse.dropWhile p).reverse.head? = some c → p c = false) ∧
     (((l.dropWhile p).reverse.dropWhile p).reverse.getLast? = some c → p c = false)) := by
  constructor
  · intro hc
    rw [List.head?_reverse] at hc
    obtain ⟨t, ht⟩ := List.dropWhile_suffix (l := (l.dropWhile p).reverse) p
    have hlast : (l.dropWhile p).reverse.getLast? = some c := by
      rw [← ht, List.getLast?_append, hc]
      rfl
    rw [List.getLast?_reverse] at hlast
    have := List.head?_dropWhile_not p l
    rw [hlast] at this
    exact this
  · intro hc
    rw [List.getLast?_reverse] at hc
    have := List.head?_dropWhile_not p (l.dropWhile p).reverse
    rw [hc] at this
    exact this

/-- C3 counterexample: for the parsed fragment `<p>a</p><p>b</p>` the
document walk produces `"\na\n\n\nb\n"`, which contains no run of three
or more consecutive blank lines (its interior run is two blank lines),
so under the claim the cleanup would only trim it, giving `"a\n\n\nb"`;
the code instead collapses the two-blank-line run and returns
`"a\n\nb"`. -/
theorem html_to_markdown_blank_lines_counterexample :
    producedText (HNode.mk "div" [] ""
        [HNode.mk "p" [] "a" [] "", HNode.mk "p" [] "b" [] ""] "") = "\na\n\n\nb\n" ∧
    hasTripleEmptyLine (splitNlChars "\na\n\n\nb\n".toList) = false ∧
    pyStrip "\na\n\n\nb\n" = "a\n\n\nb" ∧
    html_to_markdown (HNode.mk "div" [] ""
        [HNode.mk "p" [] "a" [] "", HNode.mk "p" [] "b" [] ""] "") = "a\n\nb" ∧
    ("a\n\nb" : String) ≠ "a\n\n\nb" := by
  refine ⟨by decide, by decide, by decide, by decide, by decide⟩

/-- C3 (amended: the cleanup collapses every run of **three or more
consecutive newline characters** — i.e. two or more blank lines — to
exactly two newlines (one blank line); runs of fewer newlines are left
as produced; the result is trimmed): the conversion equals the
blank-line cleanup and trim of the walk's produced text; a produced text
with no three consecutive newlines passes the cleanup unchanged; the
final output never contains three consecutive newlines and starts and
ends with non-whitespace. -/
theorem html_to_markdown_cleanup_spec :
    (∀ body : HNode,
      html_to_markdown body = pyStrip (collapseNewlines (producedText body))) ∧
    (∀ s : String, hasTripleNl s.toList = false → collapseNewlines s = s) ∧
    (∀ body : HNode, hasTripleNl (html_to_markdown body).toList = false) ∧
    (∀ (body : HNode) (c : Char),
      ((html_to_markdown body).toList.head? = some c → isPySpace c = false) ∧
      ((html_to_markdown body).toList.getLast? = some c → isPySpace c = false)) := by
  have hstrip_list : ∀ s : String, (pyStrip s).toList =
      ((s.toList.dropWhile isPySpace).reverse.dropWhile isPySpace).reverse :=
    fun s => rfl
  have hcollapse_list : ∀ s : String, (collapseNewlines s).toList =
      collapseNlChars s.toList := fun s => rfl
  refine ⟨fun _ => rfl, ?_, ?_, ?_⟩
  · intro s h
    apply String.ext
    show (collapseNewlines s).toList = s.toList
    rw [hcollapse_list, collapseNlChars_eq_self h]
  · intro body
    have hin : (html_to_markdown body).toList <:+:
        (collapseNewlines (producedText body)).toList := by
      rw [show html_to_markdown body =
        pyStrip (collapseNewlines (producedText body)) from rfl, hstrip_list]
      exact strip2_infix _ _
    have hfree : hasTripleNl (collapseNewlines (producedText body)).toList = false := by
      rw [hcollapse_list]
      exact collapseNlAux_no_triple _ 0
    exact hasTripleNl_of_infix hin hfree
  · intro body c
    have := strip2_edges isPySpace (collapseNewlines (producedText body)).toList c
    rw [show (html_to_markdown body).toList =
      (((collapseNewlines (producedText body)).toList.dropWhile isPySpace).reverse.dropWhile
        isPySpace).reverse from rfl]
    exact this

/-- C3 witness (amended theorem at concrete inputs): a string whose only
newline runs have length ≤ 2 passes the cleanup unchanged. -/
theorem html_to_markdown_cleanup_spec_witness :
    hasTripleNl "a\n\nb".toList = false ∧ collapseNewlines "a\n\nb" = "a\n\nb" :=
  ⟨by decide, html_to_markdown_cleanup_spec.2.1 "a\n\nb" (by decide)⟩

/-- Lookup after inserting at the same key (helper). -/
theorem alookup_dictInsert_self {α : Type} (k : String) (v : α) :
    ∀ l : List (String × α), alookup k (dictInsert k v l) = some v
  | [] => by simp [dictInsert, alookup]
  | (k', v') :: rest => by
    by_cases h : k' = k
    · simp [dictInsert, alookup, h]
    · simp only [dictInsert, if_neg h]
      simp only [alookup, if_neg h]
      exact alookup_dictInsert_self k v rest

/-- Lookup after inserting at a different key (helper). -/
theorem alookup_dictInsert_ne {α : Type} {k₀ k : String} (v : α) (hne : k₀ ≠ k) :
    ∀ l : List (String × α), alookup k (dictInsert k₀ v l) = alookup k l
  | [] => by simp [dictInsert, alookup, hne]
  | (k', v') :: rest => by
    by_cases h : k' = k₀
    · subst h
      simp [dictInsert, alookup, hne]
    · simp only [dictInsert, if_neg h]
      by_cases h2 : k' = k
      · simp [alookup, h2]
      · simp only [alookup, if_neg h2]
        exact alookup_dictInsert_ne v hne rest

/-- Lookup of a member under key-uniqueness (helper). -/
theorem alookup_of_mem_nodup {α : Type} {k : String} {v : α} :
    ∀ {l : List (String × α)}, (k, v) ∈ l → (l.map Prod.fst).Nodup →
      alookup k l = some v
  | (k', v') :: rest, h, hnd => by
    have hnd' : (k' :: rest.map Prod.fst).Nodup := by simpa using hnd
    obtain ⟨hnotin, hrest⟩ := List.nodup_cons.mp hnd'
    rcases List.mem_cons.1 h with h1 | h1
    · cases h1.symm
      simp [alookup]
    · have hk : k ∈ rest.map Prod.fst := List.mem_map.mpr ⟨(k, v), h1, rfl⟩
      have hne : k' ≠ k := fun hkk => hnotin (hkk ▸ hk)
      simp only [alookup, if_neg hne]
      exact alookup_of_mem_nodup h1 hrest

/-- A backfill iteration over keys other than `k` does not change the
manifest entry at `k` (helper). -/
theorem backfill_foldl_manifest_frame (fetch : String → Option (List Comment)) (now : String) :
    ∀ (ps : List (String × SyncManifestEntry)) (st : BackfillState) (k : String),
      k ∉ ps.map Prod.fst →
      alookup k ((ps.foldl (backfillStep fetch now) st).manifest.articles) =
        alookup k st.manifest.articles
  | [], _, _, _ => rfl
  | (k₀, e₀) :: rest, st, k, hk => by
    simp only [List.map_cons, List.mem_cons, not_or] at hk
    obtain ⟨h1, h2⟩ := hk
    rw [List.foldl_cons]
    rw [backfill_foldl_manifest_frame fetch now rest _ k h2]
    rcases hf : fetch k₀ with _ | cs
    · simp [backfillStep, hf]
    · simp only [backfillStep, hf, save_manifest]
      exact alookup_dictInsert_ne _ (fun h => h1 h.symm) _

/-- A backfill iteration over entries with other file paths does not
change the file at `path` (helper). -/
theorem backfill_foldl_fs_frame (fetch : String → Option (List Comment)) (now : String) :
    ∀ (ps : List (String × SyncManifestEntry)) (st : BackfillState) (path : String),
      path ∉ ps.map (fun kv => kv.2.file_path) →
      fsGet (ps.foldl (backfillStep fetch now) st).fs path = fsGet st.fs path
  | [], _, _, _ => rfl
  | (k₀, e₀) :: rest, st, path, hp => by
    simp only [List.map_cons, List.mem_cons, not_or] at hp
    obtain ⟨h1, h2⟩ := hp
    rw [List.foldl_cons]
    rw [backfill_foldl_fs_frame fetch now rest _ path h2]
    rcases hf : fetch k₀ with _ | cs
    · simp [backfillStep, hf]
    · by_cases hemp : cs.isEmpty
      · simp [backfillStep, hf, hemp]
      · simp only [backfillStep, hf, hemp, append_comments_to_article, fsSet, fsGet]
        rw [if_neg (show ¬(false = true) by simp)]
        rw [alookup_dictInsert_ne _ (fun h => h1 h.symm) _]

/-- Persisted snapshots are never dropped by later iterations (helper). -/
theorem backfill_foldl_saves_mem (fetch : String → Option (List Comment)) (now : String) :
    ∀ (ps : List (String × SyncManifestEntry)) (st : BackfillState) (m : SyncManifest),
      m ∈ st.saves → m ∈ (ps.foldl (backfillStep fetch now) st).saves
  | [], _, _, hm => hm
  | (k₀, e₀) :: rest, st, m, hm => by
    rw [List.foldl_cons]
    apply backfill_foldl_saves_mem fetch now rest
    rcases hf : fetch k₀ with _ | cs
    · simpa [backfillStep, hf] using hm
    · simp only [backfillStep, hf]
      exact List.mem_append_left _ hm

/-- Per-entry behaviour of the backfill loop over a pending list with
unique keys and unique file paths (helper): a failing fetch leaves the
entry and its file alone; a successful fetch flips the entry's flag,
appends the remarks section to its file exactly when comments were
returned, and persists a snapshot with the flag set. -/
theorem backfill_foldl_entry_spec (fetch : String → Option (List Comment)) (now : String) :
    ∀ (ps : List (String × SyncManifestEntry)) (st : BackfillState)
      (k : String) (e : SyncManifestEntry),
      (k, e) ∈ ps →
      (ps.map Prod.fst).Nodup →
      (ps.map fun kv => kv.2.file_path).Nodup →
      (fetch k = none →
        alookup k ((ps.foldl (backfillStep fetch now) st).manifest.articles) =
          alookup k st.manifest.articles ∧
        fsGet (ps.foldl (backfillStep fetch now) st).fs e.file_path =
          fsGet st.fs e.file_path) ∧
      (∀ cs, fetch k = some cs →
        alookup k ((ps.foldl (backfillStep fetch now) st).manifest.articles) =
          some { e with comments_fetched := true } ∧
        (cs.isEmpty = false →
          fsGet (ps.foldl (backfillStep fetch now) st).fs e.file_path =
            fsGet st.fs e.file_path ++ remarksSection cs) ∧
        (cs.isEmpty = true →
          fsGet (ps.foldl (backfillStep fetch now) st).fs e.file_path =
            fsGet st.fs e.file_path) ∧
        ∃ msave ∈ (ps.foldl (backfillStep fetch now) st).saves,
          alookup k msave.articles = some { e with comments_fetched := true })
  | (k₀, e₀) :: rest, st, k, e, hmem, hkeys, hpaths => by
    have hkeys' : k₀ ∉ rest.map Prod.fst ∧ (rest.map Prod.fst).Nodup :=
      List.nodup_cons.mp (show (k₀ :: rest.map Prod.fst).Nodup by simpa using hkeys)
    have hpaths' : e₀.file_path ∉ (rest.map fun kv => kv.2.file_path) ∧
        ((rest.map fun kv => kv.2.file_path)).Nodup :=
      List.nodup_cons.mp
        (show (e₀.file_path :: rest.map fun kv => kv.2.file_path).Nodup by simpa using hpaths)
    rw [List.foldl_cons]
    rcases List.mem_cons.1 hmem with heq | hmemrest
    · injection heq.symm with h1 h2
      subst h1
      subst h2
      rcases hf : fetch k₀ with _ | cs
      · have hstep : backfillStep fetch now st (k₀, e₀) = st := by
          simp [backfillStep, hf]
        rw [hstep]
        refine ⟨fun _ => ⟨?_, ?_⟩, fun cs hcs => absurd hcs (by simp)⟩
        · exact backfill_foldl_manifest_frame fetch now rest st k₀ hkeys'.1
        · exact backfill_foldl_fs_frame fetch now rest st e₀.file_path hpaths'.1
      · refine ⟨fun hnone => absurd hnone (by simp), ?_⟩
        intro cs' hcs'
        injection hcs' with hcs''
        subst hcs''
        have hA : alookup k₀ (backfillStep fetch now st (k₀, e₀)).manifest.articles =
            some { e₀ with comments_fetched := true } := by
          simp only [backfillStep, hf, save_manifest]
          exact alookup_dictInsert_self _ _ _
        have hfsB : cs.isEmpty = false →
            fsGet (backfillStep fetch now st (k₀, e₀)).fs e₀.file_path =
              fsGet st.fs e₀.file_path ++ remarksSection cs := by
          intro hemp
          simp only [backfillStep, hf, hemp, append_comments_to_article, fsSet, fsGet]
          rw [if_neg (show ¬(false = true) by simp)]
          simp [fsGet, alookup_dictInsert_self]
        have hfsB' : cs.isEmpty = true →
            fsGet (backfillStep fetch now st (k₀, e₀)).fs e₀.file_path =
              fsGet st.fs e₀.file_path := by
          intro hemp
          have hnil : cs = [] := by simpa using hemp
          subst hnil
          simp [backfillStep, hf]
        have hsaves : ∃ m ∈ (backfillStep fetch now st (k₀, e₀)).saves,
            alookup k₀ m.articles = some { e₀ with comments_fetched := true } := by
          refine ⟨(save_manifest now { st.manifest with
            articles := dictInsert k₀ { e₀ with comments_fetched := true }
              st.manifest.articles }).1, ?_, ?_⟩
          · simp [backfillStep, hf, save_manifest]
          · simp only [save_manifest]
            exact alookup_dictInsert_self _ _ _
        refine ⟨?_, ?_, ?_, ?_⟩
        · rw [backfill_foldl_manifest_frame fetch now rest _ k₀ hkeys'.1, hA]
        · intro hemp
          rw [backfill_foldl_fs_frame fetch now rest _ e₀.file_path hpaths'.1, hfsB hemp]
        · intro hemp
          rw [backfill_foldl_fs_frame fetch now rest _ e₀.file_path hpaths'.1, hfsB' hemp]
        · obtain ⟨m, hm, hm2⟩ := hsaves
          exact ⟨m, backfill_foldl_saves_mem fetch now rest _ m hm, hm2⟩
    · have hk₀ : k₀ ≠ k := by
        intro h
        subst h
        exact hkeys'.1 (List.mem_map.mpr ⟨(k₀, e), hmemrest, rfl⟩)
      have hpne : e₀.file_path ≠ e.file_path := by
        intro h
        exact hpaths'.1 (h ▸ List.mem_map.mpr ⟨(k, e), hmemrest, rfl⟩)
      have hman : alookup k (backfillStep fetch now st (k₀, e₀)).manifest.articles =
          alookup k st.manifest.articles := by
        rcases hf : fetch k₀ with _ | cs
        · simp [backfillStep, hf]
        · simp only [backfillStep, hf, save_manifest]
          exact alookup_dictInsert_ne _ hk₀ _
      have hfs : fsGet (backfillStep fetch now st (k₀, e₀)).fs e.file_path =
          fsGet st.fs e.file_path := by
        rcases hf : fetch k₀ with _ | cs
        · simp [backfillStep, hf]
        · by_cases hemp : cs.isEmpty
          · simp [backfillStep, hf, hemp]
          · simp only [backfillStep, hf, hemp, append_comments_to_article, fsSet, fsGet]
            rw [if_neg (show ¬(false = true) by simp)]
            rw [alookup_dictInsert_ne _ hpne _]
      have IH := backfill_foldl_entry_spec fetch now rest
        (backfillStep fetch now st (k₀, e₀)) k e hmemrest hkeys'.2 hpaths'.2
      rw [hman, hfs] at IH
      exact IH

/-- C1 (amended: a successful retrieval sets the flag and persists the
checkpoint; the remarks section is appended exactly when the successful
retrieval returned at least one remark — an empty successful retrieval
leaves the file untouched, see the counterexample): in backfill mode,
entries flagged fetched are never processed; for a pending entry a
failed retrieval leaves its flag false and its file unchanged while the
other pending entries are still processed; a successful retrieval sets
the flag true, appends the remarks section (prior content a prefix) when
remarks were returned, and a checkpoint snapshot with the flag true is
persisted. -/
theorem backfill_comments_spec (fetch : String → Option (List Comment)) (now : String)
    (manifest0 : SyncManifest) (fs0 : List (String × String))
    (hkeys : (manifest0.articles.map Prod.fst).Nodup)
    (hpaths : ((pendingOf manifest0).map fun kv => kv.2.file_path).Nodup) :
    (∀ k e, (k, e) ∈ manifest0.articles → e.comments_fetched = true →
      alookup k (backfill_comments fetch now manifest0 fs0).manifest.articles = some e) ∧
    (∀ k e, (k, e) ∈ manifest0.articles → e.comments_fetched = false →
      (fetch k = none →
        alookup k (backfill_comments fetch now manifest0 fs0).manifest.articles = some e ∧
        fsGet (backfill_comments fetch now manifest0 fs0).fs e.file_path =
          fsGet fs0 e.file_path) ∧
      (∀ cs, fetch k = some cs →
        alookup k (backfill_comments fetch now manifest0 fs0).manifest.articles =
          some { e with comments_fetched := true } ∧
        (cs.isEmpty = false →
          fsGet (backfill_comments fetch now manifest0 fs0).fs e.file_path =
            fsGet fs0 e.file_path ++ remarksSection cs) ∧
        (cs.isEmpty = true →
          fsGet (backfill_comments fetch now manifest0 fs0).fs e.file_path =
            fsGet fs0 e.file_path) ∧
        ∃ msave ∈ (backfill_comments fetch now manifest0 fs0).saves,
          alookup k msave.articles = some { e with comments_fetched := true })) := by
  have hpkeys : ((pendingOf manifest0).map Prod.fst).Nodup :=
    hkeys.sublist ((List.filter_sublist _).map _)
  constructor
  · intro k e hmem hflag
    have hstart : alookup k manifest0.articles = some e := alookup_of_mem_nodup hmem hkeys
    have hnotin : k ∉ (pendingOf manifest0).map Prod.fst := by
      intro hk
      obtain ⟨kv, hkv, hfst⟩ := List.mem_map.mp hk
      have hkvmem : kv ∈ manifest0.articles := List.mem_of_mem_filter hkv
      have hkvflag : kv.2.comments_fetched = false := by
        have := List.of_mem_filter hkv
        simpa using this
      have hkv2 : (k, kv.2) ∈ manifest0.articles := by
        rw [← hfst]
        exact hkvmem
      have heq : alookup k manifest0.articles = some kv.2 :=
        alookup_of_mem_nodup hkv2 hkeys
      rw [hstart] at heq
      injection heq with h2
      rw [← h2] at hkvflag
      rw [hflag] at hkvflag
      exact absurd hkvflag (by simp)
    show alookup k ((pendingOf manifest0).foldl (backfillStep fetch now)
      { manifest := manifest0, fs := fs0, saves := [], backfilled := 0 }).manifest.articles = some e
    rw [backfill_foldl_manifest_frame fetch now _ _ k hnotin]
    exact hstart
  · intro k e hmem hflag
    have hpend : (k, e) ∈ pendingOf manifest0 :=
      List.mem_filter.mpr ⟨hmem, by simp [hflag]⟩
    have H := backfill_foldl_entry_spec fetch now (pendingOf manifest0)
      { manifest := manifest0, fs := fs0, saves := [], backfilled := 0 } k e hpend hpkeys hpaths
    refine ⟨fun hnone => ?_, fun cs hcs => ?_⟩
    · obtain ⟨h1, h2⟩ := H.1 hnone
      exact ⟨h1.trans (alookup_of_mem_nodup hmem hkeys), h2⟩
    · exact H.2 cs hcs

/-- C1 counterexample: a pending entry whose retrieval succeeds with an
empty comment list has its flag set true and the checkpoint persisted,
but nothing is appended to its file — the file tree is unchanged — so a
successful retrieval does not always cause a remarks section to be
appended (crawler.py line 310 guards the append with `if comments:`). -/
theorem backfill_comments_empty_success_counterexample :
    let m0 : SyncManifest := ⟨1, "", [("1", ⟨1, "", "p", "", false⟩)]⟩
    let final := backfill_comments (fun _ => some []) "T" m0 [("p", "orig")]
    final.fs = [("p", "orig")] ∧
    alookup "1" final.manifest.articles = some ⟨1, "", "p", "", true⟩ ∧
    "orig" ++ remarksSection [] ≠ "orig" := by
  refine ⟨by decide, by decide, by decide⟩

/-- C1 witness: a two-entry checkpoint where one entry is already
fetched and the other is pending with one remark returned. -/
theorem backfill_comments_spec_witness :
    let fetchW : String → Option (List Comment) :=
      fun k => if k = "2" then some [⟨9, "note", 5, none, 0⟩] else none
    let m0 : SyncManifest :=
      ⟨1, "", [("1", ⟨1, "", "p1", "", true⟩), ("2", ⟨2, "", "p2", "", false⟩)]⟩
    let final := backfill_comments fetchW "T" m0 [("p1", "x"), ("p2", "y")]
    alookup "2" final.manifest.articles = some ⟨2, "", "p2", "", true⟩ ∧
    fsGet final.fs "p2" = "y" ++ remarksSection [⟨9, "note", 5, none, 0⟩] := by
  intro fetchW m0 final
  have H := (backfill_comments_spec fetchW "T" m0 [("p1", "x"), ("p2", "y")]
    (by decide) (by decide)).2 "2" ⟨2, "", "p2", "", false⟩ (by decide) rfl
  obtain ⟨h1, h2, h3, h4⟩ := H.2 [⟨9, "note", 5, none, 0⟩] (by decide)
  exact ⟨h1, by simpa using h2 rfl⟩
